import Mathlib

/-!
Shallow embedding of the Gaussian error handler of the custodian
repository (file src/custodian/gaussian/handlers.py).  Python
dictionaries are modelled as association lists, Python heterogeneous
values by the inductive type PyVal, the regular expressions of the
module by a small backtracking matcher (namespace Rex) that follows
the greedy, leftmost semantics of the Python re module on the pattern
shapes occurring in the source, and the file effects of the correct
method by an explicit list of file operations interpreted against an
abstract file system.
-/

/-- Lookup in a Python dict modelled as an association list:
the first binding of the key wins (keys are unique in all inputs
considered in this development). -/
def assocGet {α : Type} : List (String × α) → String → Option α
  | [], _ => none
  | p :: rest, k => if p.1 == k then some p.2 else assocGet rest k

/-- Python dict assignment: replace the first binding of the key in
place, or append a new binding at the end, as dict insertion does. -/
def assocSet {α : Type} : List (String × α) → String → α → List (String × α)
  | [], k, v => [(k, v)]
  | p :: rest, k, v => if p.1 == k then (k, v) :: rest else p :: assocSet rest k v

/-- A Python scalar value as it occurs in the route parameter
dictionaries of the handler: strings as parsed from the input file,
integers as assigned by the handler (scf maxcycle is set to the int
scf_max_cycles), and None (the alternate algorithm keys are set to
None). -/
inductive PyVal where
  | pyStr : String → PyVal
  | pyInt : Int → PyVal
  | pyNone : PyVal
  deriving DecidableEq, BEq, Repr

/-- A value of the route_parameters dict of a parsed Gaussian input:
either a plain string or a nested dict of options (for example the
scf section). -/
inductive RVal where
  | rStr : String → RVal
  | rSect : List (String × PyVal) → RVal
  deriving DecidableEq, BEq, Repr

/-- The fields of the parsed GaussianInput object that the handler
reads or mutates. -/
structure GInput where
  routeParameters : List (String × RVal)
  link0Parameters : List (String × String)
  functional : Option String
  basis_set : Option String
  deriving DecidableEq, BEq, Repr

/-- The constructor arguments of GaussianErrorHandler. -/
structure Handler where
  input_file : String
  output_file : String
  stderr_file : String
  cart_coords : Bool
  scf_max_cycles : Int
  opt_max_cycles : Int
  job_type : String
  scf_functional : Option String
  scf_basis_set : Option String
  prefixStr : String
  check_convergence : Bool
  deriving Repr

namespace Rex

/-- Regular expressions of the shape used in the handler module: all
repetition operators are applied to single character classes, which
matches every pattern of the source (backslash-s plus, the digit
classes of the numeric columns, dot-star and dot-question). -/
inductive RE where
  | eps
  | tok : (Char → Bool) → RE
  | lit : List Char → RE
  | seq : RE → RE → RE
  | alt : RE → RE → RE
  | starTok : (Char → Bool) → RE
  | optTok : (Char → Bool) → RE
  | grp : Nat → RE → RE

/-- Captured groups: group number paired with the consumed characters.
The most recent capture of a group is listed first. -/
abbrev Caps := List (Nat × List Char)

/-- Greedy star over a character class with backtracking: the longest
run that lets the continuation succeed is taken first, as in the re
module. -/
def starRun (p : Char → Bool) (s : List Char) (g : Caps)
    (k : List Char → Caps → Option Caps) : Option Caps :=
  match s with
  | [] => k [] g
  | c :: rest =>
    if p c then
      match starRun p rest g k with
      | some r => some r
      | none => k s g
    else k s g

/-- Backtracking matcher in continuation passing style, following the
priority order of the re module: alternation prefers the left branch,
repetition is greedy, the first overall success is returned. -/
def mrun : RE → List Char → Caps → (List Char → Caps → Option Caps) → Option Caps
  | .eps, s, g, k => k s g
  | .tok p, s, g, k =>
    match s with
    | [] => none
    | c :: rest => if p c then k rest g else none
  | .lit l, s, g, k =>
    if s.take l.length == l then k (s.drop l.length) g else none
  | .seq a b, s, g, k => mrun a s g (fun s1 g1 => mrun b s1 g1 k)
  | .alt a b, s, g, k =>
    match mrun a s g k with
    | some r => some r
    | none => mrun b s g k
  | .starTok p, s, g, k => starRun p s g k
  | .optTok p, s, g, k =>
    match s with
    | [] => k s g
    | c :: rest =>
      if p c then
        match k rest g with
        | some r => some r
        | none => k s g
      else k s g
  | .grp n a, s, g, k =>
    mrun a s g (fun s1 g1 => k s1 ((n, s.take (s.length - s1.length)) :: g1))

/-- The search method of the re module: try a match at every start
position from the left, returning the captures of the first success. -/
def research (re : RE) : List Char → Option Caps
  | [] => mrun re [] [] (fun _ g => some g)
  | c :: rest =>
    match mrun re (c :: rest) [] (fun _ g => some g) with
    | some g => some g
    | none => research re rest

/-- Read a captured group, defaulting to the empty token. -/
def capGet (g : Caps) (n : Nat) : List Char :=
  ((g.find? (fun q => q.1 == n)).map (fun q => q.2)).getD []

end Rex

namespace GaussianErrorHandler

/-- The error_defs class attribute: literal failure phrase mapped to
its error tag, in source order. -/
def error_defs : List (String × String) :=
  [("Optimization stopped", "opt_steps"),
   ("Convergence failure", "scf_convergence"),
   ("FormBX had a problem", "linear_bend"),
   ("Inv3 failed in PCMMkU", "solute_solvent_surface")]

/-- Whether the pattern occurs in the text starting at position i. -/
def occursAt (s pat : List Char) (i : Nat) : Bool :=
  (s.drop i).take pat.length == pat

/-- First hit of the error literal alternation over a list of start
positions: at each position the alternatives are tried in dict order,
as the re module does for an alternation pattern. -/
def firstHit (s : List Char) : List Nat → Option (String × String)
  | [] => none
  | i :: is =>
    match error_defs.find? fun p => occursAt s p.1.data i with
    | some p => some p
    | none => firstHit s is

/-- The search of error_patt, the alternation of the four literal
phrases: positions are tried from the left; the winning pair of
error_defs is returned (its first component is group 0 of the match,
its second the dict value looked up by the source on line 137). -/
def searchErrorPatt (line : String) : Option (String × String) :=
  firstHit line.data (List.range (line.data.length + 1))

/-- One or more whitespace characters. -/
def wsp : Rex.RE := .seq (.tok Char.isWhitespace) (.starTok Char.isWhitespace)

/-- Any character other than a newline, the dot of the re module. -/
def anyNoNL (c : Char) : Bool := c != '\n'

/-- The numeric column pattern of the convergence criteria: optional
minus sign, one or more digits, an optional arbitrary character (the
dot of the source pattern is not escaped), then more digits. -/
def numRE : Rex.RE :=
  .seq (.optTok (fun c => c == '-'))
    (.seq (.tok Char.isDigit)
      (.seq (.starTok Char.isDigit)
        (.seq (.optTok anyNoNL) (.starTok Char.isDigit))))

/-- The shape shared by the four conv_critera patterns: whitespace,
the metric name as group 1, whitespace, the value column as group 2
(a numeric token or any run of characters), whitespace, the threshold
column as group 3 (a numeric token). -/
def convPatt (name : String) : Rex.RE :=
  .seq wsp
    (.seq (.grp 1 (.lit name.data))
      (.seq wsp
        (.seq (.grp 2 (.alt numRE (.starTok anyNoNL)))
          (.seq wsp (.grp 3 numRE)))))

/-- The conv_critera class attribute, in source dict order; the RMS
names carry exactly five spaces, from the brace-five repetition in
the source pattern. -/
def conv_critera : List (String × Rex.RE) :=
  [("max_force", convPatt "Maximum Force"),
   ("rms_force", convPatt "RMS     Force"),
   ("max_disp", convPatt "Maximum Displacement"),
   ("rms_disp", convPatt "RMS     Displacement")]

/-- Value of a list of decimal digits. -/
def digitsVal (ds : List Char) : Nat :=
  ds.foldl (fun a c => a * 10 + (c.toNat - 48)) 0

/-- Exact decimal number: the value is num divided by ten to the exp.
Used as the idealized value of a successful Python float conversion;
no arithmetic is ever performed on the stored values in the code
under study, so the exact decimal reading of the token is a faithful
model of the stored float. -/
structure Dec where
  num : Int
  exp : Nat
  deriving DecidableEq, BEq, Repr

/-- Model of the Python float builtin on the tokens arising in this
development: an optional sign, an integer part, an optional dot and
fraction part; at least one digit must be present and no other
characters are accepted (exponents, infinities and surrounding
whitespace do not occur in the inputs considered here).  Returns the
exact decimal value, or none when the conversion raises ValueError. -/
def pyFloat (s : List Char) : Option Dec :=
  let signed : Int × List Char :=
    match s with
    | '-' :: r => (-1, r)
    | '+' :: r => (1, r)
    | r => (1, r)
  let ip := signed.2.takeWhile Char.isDigit
  let t1 := signed.2.dropWhile Char.isDigit
  match t1 with
  | [] => if ip.isEmpty then none else some ⟨signed.1 * digitsVal ip, 0⟩
  | '.' :: r =>
    let fp := r.takeWhile Char.isDigit
    let t2 := r.dropWhile Char.isDigit
    if t2.isEmpty then
      if ip.isEmpty && fp.isEmpty then none
      else some ⟨signed.1 * (digitsVal ip * 10 ^ fp.length + digitsVal fp), fp.length⟩
    else none
  | _ => none

/-- The conv_data attribute built by check: per metric the ordered
value series and the recorded threshold. -/
structure ConvData where
  values : List (String × List Dec)
  thresh : List (String × Dec)
  deriving DecidableEq, BEq, Repr

/-- Processing of one convergence criterion on one line, lines 141 to
149 of the source: on a match, the value column is converted with
float and appended (or, on the first match of the metric, both the
value and the threshold are converted and recorded); a failing float
conversion raises ValueError. -/
def convUpdateCrit (line : String) (cd : ConvData) (kv : String × Rex.RE) :
    Except String ConvData :=
  match Rex.research kv.2 line.data with
  | none => .ok cd
  | some caps =>
    let g2 := Rex.capGet caps 2
    let g3 := Rex.capGet caps 3
    match assocGet cd.values kv.1 with
    | none =>
      match pyFloat g2 with
      | none => .error "ValueError"
      | some v2 =>
        match pyFloat g3 with
        | none => .error "ValueError"
        | some v3 =>
          .ok ⟨assocSet cd.values kv.1 [v2], assocSet cd.thresh kv.1 v3⟩
    | some vs =>
      match pyFloat g2 with
      | none => .error "ValueError"
      | some v2 => .ok ⟨assocSet cd.values kv.1 (vs ++ [v2]), cd.thresh⟩

/-- All four criteria applied to one line, in dict order. -/
def convUpdateLine (line : String) (cd : ConvData) : Except String ConvData :=
  conv_critera.foldlM (convUpdateCrit line) cd

/-- The convergence scan over a list of lines. -/
def convLines (cd : ConvData) (lines : List String) : Except String ConvData :=
  lines.foldlM (fun c l => convUpdateLine l c) cd

/-- Lowercasing of a string, character by character, the model of
the Python str lower method on the ASCII keyword strings occurring in
route parameters (the builtin String.map is avoided because it does
not reduce inside the kernel). -/
def strLower (s : String) : String := String.mk (s.data.map Char.toLower)

/-- Lowercasing of a scalar route value. -/
def lowerPyVal : PyVal → PyVal
  | .pyStr s => .pyStr (strLower s)
  | v => v

/-- Lowercasing of a route value. -/
def lowerRVal : RVal → RVal
  | .rStr s => .rStr (strLower s)
  | .rSect sec => .rSect (sec.map fun p => (strLower p.1, lowerPyVal p.2))

/-- The recursive lowercase helper of the handler applied to the
route_parameters structure: keys and string values are lowercased at
every level. -/
def recursive_lowercase (rp : List (String × RVal)) : List (String × RVal) :=
  rp.map fun p => (strLower p.1, lowerRVal p.2)

/-- The in-memory input after check has normalized it, line 124 of
the source: only route_parameters is rewritten. -/
def lowerInput (g : GInput) : GInput :=
  { g with routeParameters := recursive_lowercase g.routeParameters }

/-- The observable outcome of check: the normalized parsed input that
the handler retains, the error tag set in insertion order, the
convergence data, and the boolean return value. -/
structure CheckOut where
  gin : GInput
  errors : List String
  conv : ConvData
  result : Bool
  deriving DecidableEq, BEq, Repr

/-- Set insertion into the error list. -/
def addError (es : List String) (tag : String) : List String :=
  if es.contains tag then es else es ++ [tag]

/-- One line of the check loop: the error pattern search on the line,
then, when convergence checking is enabled and the job is an
optimization, the four convergence criteria. -/
def checkLine (h : Handler) (optJob : Bool) (st : List String × ConvData)
    (line : String) : Except String (List String × ConvData) :=
  let es :=
    match searchErrorPatt line with
    | some p => addError st.1 p.2
    | none => st.1
  if h.check_convergence && optJob then
    (convUpdateLine line st.2).map fun cd => (es, cd)
  else .ok (es, st.2)

/-- The check method on the already parsed input and the list of log
lines: normalizes the route parameters, scans every line for error
literals and convergence data, and returns whether any error was
found.  The ValueError of a failing float conversion propagates. -/
def check (h : Handler) (gin0 : GInput) (log : List String) :
    Except String CheckOut :=
  let gin := lowerInput gin0
  let optJob := (assocGet gin.routeParameters "opt").isSome
  (log.foldlM (checkLine h optJob) ([], ⟨[], []⟩)).map fun st =>
    ⟨gin, st.1, st.2, decide (st.1.length > 0)⟩

/-- File effects of the correct method. -/
inductive FileOp where
  | backupOp : List String → String → FileOp
  | renameOp : String → String → FileOp
  | writeOp : String → GInput → Bool → FileOp
  deriving DecidableEq, BEq, Repr

/-- The backup file list of correct, lines 160 to 167: input, output
and stderr files, then the first chk glob hit and the first fchk glob
hit; the two glob lookups share a single try block, so when no chk
file exists neither checkpoint is appended. -/
def backupFiles (h : Handler) (globChk globFchk : Option String) : List String :=
  [h.input_file, h.output_file, h.stderr_file] ++
    (match globChk with
     | none => []
     | some c =>
       match globFchk with
       | none => [c]
       | some f => [c, f])

/-- The return value of correct: the error tags and the optional
action list (None on terminal failure). -/
structure CResult where
  errors : List String
  actions : Option (List (String × PyVal))
  deriving DecidableEq, BEq, Repr

/-- The comparison on line 171 of the source: a dict get result
compared with a Python string for equality; None, a missing key and
an int value all compare unequal to the string. -/
def getEqStr (v : Option PyVal) (t : String) : Bool :=
  match v with
  | some (.pyStr s) => s == t
  | _ => false

/-- The unconditional tail of correct, lines 228 to 230: rename the
input file to the prev name, write the retained input object to the
input path and return the errors with the action list. -/
def finishWrite (h : Handler) (gin : GInput) (errors : List String)
    (actions : List (String × PyVal)) (flag : Bool) (ops : List FileOp) :
    Except String (CResult × GInput × Bool × List FileOp) :=
  .ok (⟨errors, some actions⟩, gin, flag,
    ops ++ [.renameOp h.input_file (h.input_file ++ ".prev"),
            .writeOp h.input_file gin h.cart_coords])

/-- The correct method.  Arguments: the handler, the retained parsed
input, the error tag set from check, the class level
activate_better_scf_guess flag, and the first hits of the two
checkpoint globs.  Returns the result dict, the retained input after
mutation, the new flag, and the file operations performed; a Python
exception is modelled as the error case. -/
def correct (h : Handler) (gin : GInput) (errors : List String) (flag : Bool)
    (globChk globFchk : Option String) :
    Except String (CResult × GInput × Bool × List FileOp) :=
  let ops : List FileOp := [.backupOp (backupFiles h globChk globFchk) h.prefixStr]
  if errors.contains "scf_convergence" then
    match assocGet gin.routeParameters "scf" with
    | none => .error "AttributeError: NoneType has no attribute get"
    | some (.rStr _) => .error "AttributeError: str has no attribute get"
    | some (.rSect scf) =>
      if !getEqStr (assocGet scf "maxcycle") (toString h.scf_max_cycles) then
        let rp1 := assocSet gin.routeParameters "scf"
          (.rSect (assocSet scf "maxcycle" (.pyInt h.scf_max_cycles)))
        let gin1 := { gin with routeParameters := rp1 }
        finishWrite h gin1 errors [("scf_max_cycles", .pyInt h.scf_max_cycles)] flag ops
      else if !(["xqc", "yqc", "qc"].any fun a => (assocGet scf a).isSome) then
        let rp1 := assocSet gin.routeParameters "scf"
          (.rSect (assocSet scf "xqc" .pyNone))
        let gin1 := { gin with routeParameters := rp1 }
        finishWrite h gin1 errors [("scf_algorithm", .pyStr "xqc")] flag ops
      else if h.job_type == "better_scf_guess" && !flag then
        let gin1 := { gin with functional := h.scf_functional,
                               basis_set := h.scf_basis_set }
        finishWrite h gin1 errors
          [("scf_level_of_theory", .pyStr "better_scf_guess")] true ops
      else
        .ok (⟨errors, none⟩, gin, flag, ops)
  else if errors.contains "FormBX had a problem." then
    .error "TypeError: dict object is not callable"
  else
    finishWrite h gin errors [] flag ops

/-- Contents of a path in the abstract file system: either the raw
original text or the serialization of an input object with the
coordinate flag. -/
inductive FileContent where
  | raw : String → FileContent
  | written : GInput → Bool → FileContent
  deriving DecidableEq, BEq, Repr

/-- Abstract file system: path to content. -/
abbrev FS := List (String × FileContent)

/-- Interpretation of one file operation: backup leaves the working
directory unchanged, rename moves the content of the source path to
the destination path, write replaces the content of the path. -/
def applyOp (fs : FS) : FileOp → FS
  | .backupOp _ _ => fs
  | .renameOp src dst =>
    match assocGet fs src with
    | none => fs
    | some c => assocSet (fs.filter fun p => p.1 != src) dst c
  | .writeOp p g cart => assocSet fs p (.written g cart)

/-- Interpretation of a list of file operations. -/
def applyOps (fs : FS) (ops : List FileOp) : FS :=
  ops.foldl applyOp fs

/-- Reader for a key of the scf route section through the nested
dicts; none when the scf section is absent or not a dict. -/
def scfKey (g : GInput) (k : String) : Option PyVal :=
  match assocGet g.routeParameters "scf" with
  | some (.rSect s) => assocGet s k
  | _ => none

/-- The mutated input of branch 1a, lines 175 to 176 of the source:
the scf maxcycle entry is set to the integer scf_max_cycles. -/
def capRaised (gin : GInput) (scf : List (String × PyVal)) (m : Int) : GInput :=
  { gin with routeParameters := assocSet gin.routeParameters "scf" (RVal.rSect (assocSet scf "maxcycle" (PyVal.pyInt m))) }

/-- The mutated input of branch 1b, line 182 of the source: the xqc
key is added to the scf section with value None. -/
def xqcAdded (gin : GInput) (scf : List (String × PyVal)) : GInput :=
  { gin with routeParameters := assocSet gin.routeParameters "scf" (RVal.rSect (assocSet scf "xqc" PyVal.pyNone)) }

/-- One invocation of correct within a process: a handler instance
(possibly a distinct one per call), its retained input, the error set
passed in, and the checkpoint glob results of the call. -/
structure CallSpec where
  h : Handler
  gin : GInput
  errors : List String
  globChk : Option String
  globFchk : Option String

/-- The better initial guess action of branch 1c. -/
def bgAct : String × PyVal := ("scf_level_of_theory", PyVal.pyStr "better_scf_guess")

/-- Number of better initial guess actions recorded in one result. -/
def countBG (res : CResult) : Nat :=
  match res.actions with
  | none => 0
  | some acts => acts.countP fun a => a == bgAct

/-- One call of correct against the process wide class flag: returns
the new flag (unchanged when an exception was raised) and the number
of better initial guess actions recorded by the call. -/
def stepCall (flag : Bool) (c : CallSpec) : Bool × Nat :=
  match correct c.h c.gin c.errors flag c.globChk c.globFchk with
  | .error _ => (flag, 0)
  | .ok (res, _, flag1, _) => (flag1, countBG res)

/-- A sequence of correct calls threaded through the process wide
flag: the final flag and the total number of better initial guess
actions recorded over the whole sequence. -/
def runTrace (flag : Bool) : List CallSpec → Bool × Nat
  | [] => (flag, 0)
  | c :: cs =>
    ((runTrace (stepCall flag c).1 cs).1,
     (stepCall flag c).2 + (runTrace (stepCall flag c).1 cs).2)

/-- A handler in the default normal job mode, used as concrete
witness input. -/
def hNormal : Handler :=
  ⟨"mol.com", "mol.out", "stderr.txt", true, 100, 100, "normal", some "hf", some "sto-3g", "error", true⟩

/-- An scf section whose maxcycle is below the handler maximum. -/
def scfW50 : List (String × PyVal) := [("maxcycle", PyVal.pyStr "50")]

/-- An scf section whose maxcycle equals the handler maximum. -/
def scfW100 : List (String × PyVal) := [("maxcycle", PyVal.pyStr "100")]

/-- An scf section at the maximum with an alternate algorithm already
requested. -/
def scfWalg : List (String × PyVal) := [("maxcycle", PyVal.pyStr "100"), ("xqc", PyVal.pyNone)]

/-- Input with the low scf cap. -/
def ginCap : GInput := ⟨[("scf", RVal.rSect scfW50)], [], none, none⟩

/-- Input with the scf cap at the maximum and no alternate algorithm. -/
def ginAlg : GInput := ⟨[("scf", RVal.rSect scfW100)], [], none, none⟩

/-- Input with the scf cap at the maximum and xqc already requested. -/
def ginEx : GInput := ⟨[("scf", RVal.rSect scfWalg)], [], none, none⟩

/-- Input with an empty route section. -/
def ginBare : GInput := ⟨[], [], none, none⟩

/-- An optimization input without an scf section. -/
def ginOpt : GInput := ⟨[("opt", RVal.rStr "")], [], none, none⟩

/-- A working directory holding only the original input file. -/
def fsMol : FS := [("mol.com", FileContent.raw "original gaussian input")]

/-- The check outcome on the bare input and a log holding the linear
bend literal. -/
def outLB : CheckOut := ⟨ginBare, ["linear_bend"], ⟨[], []⟩, true⟩

/-- The check outcome on the bare input and a log holding the
optimization stop literal. -/
def outOS : CheckOut := ⟨ginBare, ["opt_steps"], ⟨[], []⟩, true⟩

/-- A convergence state in which max_force has already been recorded
once (value 0.016, threshold 0.000450). -/
def cdW7 : ConvData := ⟨[("max_force", [⟨16, 3⟩])], [("max_force", ⟨450, 6⟩)]⟩

/-- The convergence state after one further max_force line with a
different threshold column. -/
def cdW7' : ConvData := ⟨[("max_force", [⟨16, 3⟩, ⟨20, 3⟩])], [("max_force", ⟨450, 6⟩)]⟩

end GaussianErrorHandler

theorem assocGet_assocSet_self {α : Type} (l : List (String × α)) (k : String) (v : α) :
    assocGet (assocSet l k v) k = some v := by
  induction l with
  | nil => simp [assocGet, assocSet]
  | cons p rest ih =>
    by_cases hp : p.1 = k
    · simp [assocGet, assocSet, hp]
    · simp [assocGet, assocSet, hp, ih]

theorem assocGet_assocSet_ne {α : Type} (l : List (String × α)) (k k' : String) (v : α)
    (h : k' ≠ k) : assocGet (assocSet l k v) k' = assocGet l k' := by
  induction l with
  | nil => simp [assocGet, assocSet, Ne.symm h]
  | cons p rest ih =>
    by_cases hp : p.1 = k <;> by_cases hp' : p.1 = k' <;>
      simp_all [assocGet, assocSet]

theorem append_prev_ne (s : String) : s ++ ".prev" ≠ s := by
  intro hcontra
  have hlen := congrArg String.length hcontra
  rw [String.length_append] at hlen
  have h5 : (".prev" : String).length = 5 := rfl
  rw [h5] at hlen
  omega

namespace GaussianErrorHandler

theorem correct_cap_raise (h : Handler) (gin : GInput) (errors : List String)
    (flag : Bool) (scf : List (String × PyVal)) (cG cF : Option String)
    (herr : errors.contains "scf_convergence" = true)
    (hscf : assocGet gin.routeParameters "scf" = some (.rSect scf))
    (hne : getEqStr (assocGet scf "maxcycle") (toString h.scf_max_cycles) = false) :
    correct h gin errors flag cG cF =
      .ok (⟨errors, some [("scf_max_cycles", .pyInt h.scf_max_cycles)]⟩,
        capRaised gin scf h.scf_max_cycles, flag,
        [.backupOp (backupFiles h cG cF) h.prefixStr,
         .renameOp h.input_file (h.input_file ++ ".prev"),
         .writeOp h.input_file (capRaised gin scf h.scf_max_cycles) h.cart_coords]) := by
  unfold correct
  rw [herr, hscf]
  simp [hne, finishWrite, capRaised]

theorem correct_fallthrough (h : Handler) (gin : GInput) (errors : List String)
    (flag : Bool) (cG cF : Option String)
    (herr : errors.contains "scf_convergence" = false)
    (hfb : errors.contains "FormBX had a problem." = false) :
    correct h gin errors flag cG cF =
      .ok (⟨errors, some []⟩, gin, flag,
        [.backupOp (backupFiles h cG cF) h.prefixStr,
         .renameOp h.input_file (h.input_file ++ ".prev"),
         .writeOp h.input_file gin h.cart_coords]) := by
  unfold correct
  rw [herr, hfb]
  simp [finishWrite]

theorem applyOps_mutate (fs : FS) (bfiles : List String) (pfx inp : String)
    (g : GInput) (cart : Bool) (orig : FileContent)
    (hfs : assocGet fs inp = some orig) :
    assocGet (applyOps fs
      [.backupOp bfiles pfx, .renameOp inp (inp ++ ".prev"), .writeOp inp g cart])
      (inp ++ ".prev") = some orig ∧
    assocGet (applyOps fs
      [.backupOp bfiles pfx, .renameOp inp (inp ++ ".prev"), .writeOp inp g cart])
      inp = some (.written g cart) := by
  simp only [applyOps, List.foldl, applyOp, hfs]
  constructor
  · rw [assocGet_assocSet_ne _ _ _ _ (append_prev_ne inp)]
    exact assocGet_assocSet_self _ _ _
  · exact assocGet_assocSet_self _ _ _

/-- C1: for a handler configured with scf_max_cycles equal to 100 and
a parsed input whose route parameters hold an scf section with
maxcycle 50, when the error set contains the scf_convergence tag, the
correct method returns the single action scf_max_cycles 100, the
mutated input carries scf maxcycle 100, and after the performed file
operations the original input content sits at the original path with
the .prev suffix while the mutated input is written to the original
path. -/
theorem scf_cap_raise_scenario (h : Handler) (gin : GInput) (errors : List String)
    (flag : Bool) (scf : List (String × PyVal)) (cG cF : Option String)
    (fs : FS) (orig : String)
    (hmax : h.scf_max_cycles = 100)
    (hscf : assocGet gin.routeParameters "scf" = some (.rSect scf))
    (hcyc : assocGet scf "maxcycle" = some (.pyStr "50"))
    (herr : errors.contains "scf_convergence" = true)
    (hfs : assocGet fs h.input_file = some (.raw orig)) :
    correct h gin errors flag cG cF =
      .ok (⟨errors, some [("scf_max_cycles", .pyInt 100)]⟩,
        capRaised gin scf 100, flag,
        [.backupOp (backupFiles h cG cF) h.prefixStr,
         .renameOp h.input_file (h.input_file ++ ".prev"),
         .writeOp h.input_file (capRaised gin scf 100) h.cart_coords]) ∧
    scfKey (capRaised gin scf 100) "maxcycle" = some (.pyInt 100) ∧
    assocGet (applyOps fs
      [.backupOp (backupFiles h cG cF) h.prefixStr,
       .renameOp h.input_file (h.input_file ++ ".prev"),
       .writeOp h.input_file (capRaised gin scf 100) h.cart_coords])
      (h.input_file ++ ".prev") = some (.raw orig) ∧
    assocGet (applyOps fs
      [.backupOp (backupFiles h cG cF) h.prefixStr,
       .renameOp h.input_file (h.input_file ++ ".prev"),
       .writeOp h.input_file (capRaised gin scf 100) h.cart_coords])
      h.input_file = some (.written (capRaised gin scf 100) h.cart_coords) := by
  have hne : getEqStr (assocGet scf "maxcycle") (toString h.scf_max_cycles) = false := by
    rw [hcyc, hmax]
    rfl
  have hcr := correct_cap_raise h gin errors flag scf cG cF herr hscf hne
  rw [hmax] at hcr
  have hmut := applyOps_mutate fs (backupFiles h cG cF) h.prefixStr h.input_file
    (capRaised gin scf 100) h.cart_coords (.raw orig) hfs
  refine ⟨hcr, ?_, hmut.1, hmut.2⟩
  simp [scfKey, capRaised, assocGet_assocSet_self]

theorem scf_cap_raise_scenario_witness :
    correct hNormal ginCap ["scf_convergence"] false none none =
      .ok (⟨["scf_convergence"], some [("scf_max_cycles", .pyInt 100)]⟩,
        capRaised ginCap scfW50 100, false,
        [.backupOp (backupFiles hNormal none none) hNormal.prefixStr,
         .renameOp hNormal.input_file (hNormal.input_file ++ ".prev"),
         .writeOp hNormal.input_file (capRaised ginCap scfW50 100) hNormal.cart_coords]) ∧
    scfKey (capRaised ginCap scfW50 100) "maxcycle" = some (.pyInt 100) ∧
    assocGet (applyOps fsMol
      [.backupOp (backupFiles hNormal none none) hNormal.prefixStr,
       .renameOp hNormal.input_file (hNormal.input_file ++ ".prev"),
       .writeOp hNormal.input_file (capRaised ginCap scfW50 100) hNormal.cart_coords])
      (hNormal.input_file ++ ".prev") = some (.raw "original gaussian input") ∧
    assocGet (applyOps fsMol
      [.backupOp (backupFiles hNormal none none) hNormal.prefixStr,
       .renameOp hNormal.input_file (hNormal.input_file ++ ".prev"),
       .writeOp hNormal.input_file (capRaised ginCap scfW50 100) hNormal.cart_coords])
      hNormal.input_file = some (.written (capRaised ginCap scfW50 100) hNormal.cart_coords) :=
  scf_cap_raise_scenario hNormal ginCap ["scf_convergence"] false scfW50 none none
    fsMol "original gaussian input" rfl rfl rfl rfl rfl

/-- C5: when the scf_convergence tag is present and every scf remedy
is exhausted (the scf maxcycle already equals the configured maximum
in its parsed string form, one of the alternate algorithms xqc, yqc,
qc is already requested, and either the job type is not
better_scf_guess or the class flag is already true), correct returns
the error set with actions None and performs no rename and no write:
only the backup taken at entry. -/
theorem scf_exhausted_terminal (h : Handler) (gin : GInput) (errors : List String)
    (flag : Bool) (scf : List (String × PyVal)) (cG cF : Option String)
    (herr : errors.contains "scf_convergence" = true)
    (hscf : assocGet gin.routeParameters "scf" = some (.rSect scf))
    (hcyc : assocGet scf "maxcycle" = some (.pyStr (toString h.scf_max_cycles)))
    (halg : (["xqc", "yqc", "qc"].any fun a => (assocGet scf a).isSome) = true)
    (hjob : h.job_type ≠ "better_scf_guess" ∨ flag = true) :
    correct h gin errors flag cG cF =
      .ok (⟨errors, none⟩, gin, flag,
        [.backupOp (backupFiles h cG cF) h.prefixStr]) := by
  have heq : getEqStr (assocGet scf "maxcycle") (toString h.scf_max_cycles) = true := by
    rw [hcyc]
    simp [getEqStr]
  have hj : (h.job_type == "better_scf_guess" && !flag) = false := by
    rcases hjob with hj1 | hj2
    · simp [hj1]
    · simp [hj2]
  unfold correct
  rw [herr, hscf]
  simp [heq, halg, hj]

theorem scf_exhausted_terminal_witness :
    correct hNormal ginEx ["scf_convergence"] false none none =
      .ok (⟨["scf_convergence"], none⟩, ginEx, false,
        [.backupOp (backupFiles hNormal none none) hNormal.prefixStr]) :=
  scf_exhausted_terminal hNormal ginEx ["scf_convergence"] false scfWalg none none
    rfl rfl rfl rfl (Or.inl (by decide))

/-- C6: with the scf_convergence tag present and the scf maxcycle
already equal to the configured maximum in its parsed string form,
the cap raise branch does not fire again; when none of xqc, yqc, qc
is requested, correct proceeds to branch 1b, adds xqc (value None) to
the scf section and records exactly the single action scf_algorithm
xqc. -/
theorem second_cycle_alt_algorithm (h : Handler) (gin : GInput) (errors : List String)
    (flag : Bool) (scf : List (String × PyVal)) (cG cF : Option String)
    (herr : errors.contains "scf_convergence" = true)
    (hscf : assocGet gin.routeParameters "scf" = some (.rSect scf))
    (hcyc : assocGet scf "maxcycle" = some (.pyStr (toString h.scf_max_cycles)))
    (halg : (["xqc", "yqc", "qc"].any fun a => (assocGet scf a).isSome) = false) :
    correct h gin errors flag cG cF =
      .ok (⟨errors, some [("scf_algorithm", .pyStr "xqc")]⟩,
        xqcAdded gin scf, flag,
        [.backupOp (backupFiles h cG cF) h.prefixStr,
         .renameOp h.input_file (h.input_file ++ ".prev"),
         .writeOp h.input_file (xqcAdded gin scf) h.cart_coords]) ∧
    scfKey (xqcAdded gin scf) "xqc" = some .pyNone := by
  have heq : getEqStr (assocGet scf "maxcycle") (toString h.scf_max_cycles) = true := by
    rw [hcyc]
    simp [getEqStr]
  constructor
  · unfold correct
    rw [herr, hscf]
    simp [heq, halg, finishWrite, xqcAdded]
  · simp [scfKey, xqcAdded, assocGet_assocSet_self]

theorem second_cycle_alt_algorithm_witness :
    (correct hNormal ginAlg ["scf_convergence"] false none none =
      .ok (⟨["scf_convergence"], some [("scf_algorithm", .pyStr "xqc")]⟩,
        xqcAdded ginAlg scfW100, false,
        [.backupOp (backupFiles hNormal none none) hNormal.prefixStr,
         .renameOp hNormal.input_file (hNormal.input_file ++ ".prev"),
         .writeOp hNormal.input_file (xqcAdded ginAlg scfW100) hNormal.cart_coords])) ∧
    scfKey (xqcAdded ginAlg scfW100) "xqc" = some .pyNone :=
  second_cycle_alt_algorithm hNormal ginAlg ["scf_convergence"] false scfW100 none none
    rfl rfl rfl rfl

/-- C10: an scf section is an unstated precondition of the scf
remedies: when the lowercased route parameters hold no scf key and
the error set contains the scf_convergence tag, correct raises (the
get method is called on the None returned by the route dict lookup)
instead of returning any result. -/
theorem scf_section_required (h : Handler) (gin : GInput) (errors : List String)
    (flag : Bool) (cG cF : Option String)
    (herr : errors.contains "scf_convergence" = true)
    (hscf : assocGet gin.routeParameters "scf" = none) :
    correct h gin errors flag cG cF =
      .error "AttributeError: NoneType has no attribute get" := by
  unfold correct
  rw [herr, hscf]
  rfl

theorem scf_section_required_witness :
    correct hNormal ginOpt ["scf_convergence"] false none none =
      .error "AttributeError: NoneType has no attribute get" :=
  scf_section_required hNormal ginOpt ["scf_convergence"] false none none rfl rfl

end GaussianErrorHandler

namespace GaussianErrorHandler

theorem firstHit_mem (s : List Char) (is : List Nat) (p : String × String)
    (h : firstHit s is = some p) : p ∈ error_defs := by
  induction is with
  | nil => simp [firstHit] at h
  | cons i is ih =>
    unfold firstHit at h
    cases hf : error_defs.find? fun q => occursAt s q.1.data i with
    | none => rw [hf] at h; exact ih h
    | some q =>
      rw [hf] at h
      injection h with h
      subst h
      exact List.mem_of_find?_eq_some hf

theorem searchErrorPatt_mem (line : String) (p : String × String)
    (h : searchErrorPatt line = some p) : p ∈ error_defs :=
  firstHit_mem _ _ _ h

theorem mem_addError (es : List String) (t e : String) (h : e ∈ addError es t) :
    e ∈ es ∨ e = t := by
  unfold addError at h
  split at h
  · exact Or.inl h
  · rcases List.mem_append.mp h with h1 | h1
    · exact Or.inl h1
    · simp at h1
      exact Or.inr h1

theorem checkLine_errors (h : Handler) (optJob : Bool) (st : List String × ConvData)
    (line : String) (st' : List String × ConvData)
    (hok : checkLine h optJob st line = .ok st') :
    st'.1 = st.1 ∨ ∃ p ∈ error_defs, st'.1 = addError st.1 p.2 := by
  cases hse : searchErrorPatt line with
  | none =>
    simp only [checkLine, hse] at hok
    split at hok
    · cases hcv : convUpdateLine line st.2 with
      | error e => rw [hcv] at hok; exact Except.noConfusion hok
      | ok cd =>
        rw [hcv] at hok
        simp only [Except.map] at hok
        injection hok with hok
        subst hok
        exact Or.inl rfl
    · injection hok with hok
      subst hok
      exact Or.inl rfl
  | some p =>
    simp only [checkLine, hse] at hok
    refine Or.inr ⟨p, searchErrorPatt_mem line p hse, ?_⟩
    split at hok
    · cases hcv : convUpdateLine line st.2 with
      | error e => rw [hcv] at hok; exact Except.noConfusion hok
      | ok cd =>
        rw [hcv] at hok
        simp only [Except.map] at hok
        injection hok with hok
        subst hok
        rfl
    · injection hok with hok
      subst hok
      rfl

theorem checkFold_tags (h : Handler) (optJob : Bool) (log : List String)
    (st res : List String × ConvData)
    (hfold : log.foldlM (checkLine h optJob) st = .ok res)
    (hst : ∀ e ∈ st.1, e ∈ error_defs.map Prod.snd) :
    ∀ e ∈ res.1, e ∈ error_defs.map Prod.snd := by
  induction log generalizing st with
  | nil =>
    simp only [List.foldlM] at hfold
    have hsr : st = res := Except.ok.inj hfold
    subst hsr
    exact hst
  | cons l ls ih =>
    rw [List.foldlM_cons] at hfold
    cases hcl : checkLine h optJob st l with
    | error e => rw [hcl] at hfold; exact Except.noConfusion hfold
    | ok st1 =>
      rw [hcl] at hfold
      refine ih st1 hfold ?_
      intro e he
      rcases checkLine_errors h optJob st l st1 hcl with h1 | ⟨p, hp, h2⟩
      · exact hst e (h1 ▸ he)
      · rcases mem_addError st.1 p.2 e (h2 ▸ he) with h3 | h3
        · exact hst e h3
        · subst h3
          exact List.mem_map.mpr ⟨p, hp, rfl⟩

theorem check_ok_parts (h : Handler) (gin0 : GInput) (log : List String) (out : CheckOut)
    (hok : check h gin0 log = .ok out) :
    out.gin = lowerInput gin0 ∧
    ∃ st : List String × ConvData,
      log.foldlM (checkLine h ((assocGet (lowerInput gin0).routeParameters "opt").isSome))
        ([], ⟨[], []⟩) = .ok st ∧
      out.errors = st.1 ∧ out.conv = st.2 ∧ out.result = decide (st.1.length > 0) := by
  simp only [check] at hok
  cases hf : log.foldlM (checkLine h ((assocGet (lowerInput gin0).routeParameters "opt").isSome))
      (([] : List String), (⟨[], []⟩ : ConvData)) with
  | error e => rw [hf] at hok; exact Except.noConfusion hok
  | ok st =>
    rw [hf] at hok
    simp only [Except.map] at hok
    injection hok with hok
    exact ⟨by rw [← hok], st, rfl, by rw [← hok], by rw [← hok], by rw [← hok]⟩

theorem checkLine_same_errors (h : Handler) (optJob : Bool)
    (st st' : List String × ConvData) (line : String)
    (hse : searchErrorPatt line = none)
    (hok : checkLine h optJob st line = .ok st') : st'.1 = st.1 := by
  simp only [checkLine, hse] at hok
  split at hok
  · cases hcv : convUpdateLine line st.2 with
    | error e => rw [hcv] at hok; exact Except.noConfusion hok
    | ok cd =>
      rw [hcv] at hok
      simp only [Except.map] at hok
      injection hok with hok
      subst hok
      rfl
  · injection hok with hok
    subst hok
    rfl

theorem checkFold_no_literals (h : Handler) (optJob : Bool) (log : List String)
    (st res : List String × ConvData)
    (hno : ∀ l ∈ log, searchErrorPatt l = none)
    (hfold : log.foldlM (checkLine h optJob) st = .ok res) :
    res.1 = st.1 := by
  induction log generalizing st with
  | nil =>
    simp only [List.foldlM] at hfold
    have hsr : st = res := Except.ok.inj hfold
    subst hsr
    rfl
  | cons l ls ih =>
    rw [List.foldlM_cons] at hfold
    cases hcl : checkLine h optJob st l with
    | error e => rw [hcl] at hfold; exact Except.noConfusion hfold
    | ok st1 =>
      rw [hcl] at hfold
      have h1 : st1.1 = st.1 :=
        checkLine_same_errors h optJob st st1 l (hno l (List.mem_cons_self l ls)) hcl
      have h2 : res.1 = st1.1 := ih st1 (fun x hx => hno x (List.mem_cons_of_mem l hx)) hfold
      exact h2.trans h1

theorem checkLine_noconv (h : Handler) (optJob : Bool)
    (st : List String × ConvData) (line : String)
    (hcc : (h.check_convergence && optJob) = false)
    (hse : searchErrorPatt line = none) :
    checkLine h optJob st line = .ok st := by
  simp only [checkLine, hse, hcc]
  simp

theorem checkFold_noconv (h : Handler) (optJob : Bool) (log : List String)
    (st : List String × ConvData)
    (hcc : (h.check_convergence && optJob) = false)
    (hno : ∀ l ∈ log, searchErrorPatt l = none) :
    log.foldlM (checkLine h optJob) st = .ok st := by
  induction log with
  | nil => rfl
  | cons l ls ih =>
    rw [List.foldlM_cons, checkLine_noconv h optJob st l hcc (hno l (List.mem_cons_self l ls))]
    exact ih fun x hx => hno x (List.mem_cons_of_mem l hx)

/-- C8 amended: for every output log containing none of the four
known literal failure phrases, check adds no error signature:
whenever check completes it produces an empty error set and returns
false, and it is guaranteed to complete (the convergence scan being
the only failure source) whenever convergence tracking is disabled or
the input is not an optimization job. -/
theorem no_error_literals_healthy (h : Handler) (gin : GInput) (log : List String)
    (hno : ∀ l ∈ log, searchErrorPatt l = none) :
    (∀ out : CheckOut, check h gin log = .ok out →
      out.errors = [] ∧ out.result = false) ∧
    ((h.check_convergence &&
        (assocGet (lowerInput gin).routeParameters "opt").isSome) = false →
      check h gin log = .ok ⟨lowerInput gin, [], ⟨[], []⟩, false⟩) := by
  constructor
  · intro out hok
    obtain ⟨hgin, st, hfold, herrs, hconv, hres⟩ := check_ok_parts h gin log out hok
    have h0 : st.1 = [] := checkFold_no_literals h _ log _ st hno hfold
    constructor
    · rw [herrs, h0]
    · rw [hres, h0]
      rfl
  · intro hcc
    have hfold := checkFold_noconv h
      ((assocGet (lowerInput gin).routeParameters "opt").isSome) log
      (([] : List String), (⟨[], []⟩ : ConvData)) hcc hno
    simp only [check]
    rw [hfold]
    rfl

theorem no_error_literals_healthy_witness :
    check hNormal ginBare ["all values fine"] =
      .ok ⟨lowerInput ginBare, [], ⟨[], []⟩, false⟩ :=
  (no_error_literals_healthy hNormal ginBare ["all values fine"]
    (by decide)).2 (by decide)

/-- C8 counterexample: a log with no failure literal on which check
does not return at all: with convergence tracking enabled on an
optimization input, a placeholder value column raises ValueError, so
check neither produces an empty set nor returns false. -/
theorem no_error_literals_claim_fails :
    ((([" Maximum Force *** 0.000450"].all fun l => (searchErrorPatt l).isNone)) = true) ∧
    check hNormal ginOpt [" Maximum Force *** 0.000450"] = .error "ValueError" :=
  ⟨rfl, rfl⟩

/-- C9: every error set produced by check holds only the four mapped
tags, so the linear bend membership test on the raw phrase never
succeeds; whenever scf_convergence is absent, correct falls through
to the unconditional tail: it renames the input file to the prev
name, rewrites the input path with the in memory route lowercased
parsed input, and returns the errors with an empty action list. -/
theorem non_scf_error_sets_still_rewrite (h : Handler) (gin0 : GInput) (log : List String)
    (out : CheckOut) (flag : Bool) (cG cF : Option String)
    (hok : check h gin0 log = .ok out)
    (hnos : out.errors.contains "scf_convergence" = false) :
    out.gin = lowerInput gin0 ∧
    correct h out.gin out.errors flag cG cF =
      .ok (⟨out.errors, some []⟩, out.gin, flag,
        [.backupOp (backupFiles h cG cF) h.prefixStr,
         .renameOp h.input_file (h.input_file ++ ".prev"),
         .writeOp h.input_file out.gin h.cart_coords]) := by
  obtain ⟨hgin, st, hfold, herrs, _, _⟩ := check_ok_parts h gin0 log out hok
  have htags : ∀ e ∈ out.errors, e ∈ error_defs.map Prod.snd := by
    rw [herrs]
    exact checkFold_tags h _ log _ st hfold (by simp)
  have hfb : out.errors.contains "FormBX had a problem." = false := by
    cases hcb : out.errors.contains "FormBX had a problem." with
    | false => rfl
    | true =>
      exfalso
      have hmem : "FormBX had a problem." ∈ out.errors := by simpa using hcb
      have hm2 := htags _ hmem
      simp [error_defs] at hm2
  exact ⟨hgin, correct_fallthrough h out.gin out.errors flag cG cF hnos hfb⟩

theorem non_scf_error_sets_still_rewrite_witness :
    outOS.gin = lowerInput ginBare ∧
    correct hNormal outOS.gin outOS.errors false none none =
      .ok (⟨outOS.errors, some []⟩, outOS.gin, false,
        [.backupOp (backupFiles hNormal none none) hNormal.prefixStr,
         .renameOp hNormal.input_file (hNormal.input_file ++ ".prev"),
         .writeOp hNormal.input_file outOS.gin hNormal.cart_coords]) :=
  non_scf_error_sets_still_rewrite hNormal ginBare
    ["Optimization stopped -- number of steps exceeded"] outOS false none none rfl rfl

/-- C2: the claim fails on the code.  On a log holding the linear
bend literal, check stores the mapped tag linear_bend, while the
remedy branch of correct tests membership of the raw phrase with a
trailing period, which is never in the error set; with no checkpoint
reference in link0 parameters and scf_convergence absent, correct
does not fail fast: it renames the input to the prev name and
rewrites the input path, so the original input path content changes. -/
theorem linear_bend_no_chk_still_mutates :
    check hNormal ginBare [" FormBX had a problem with angle"] = .ok outLB ∧
    assocGet ginBare.link0Parameters "%chk" = none ∧
    outLB.errors.contains "scf_convergence" = false ∧
    correct hNormal outLB.gin outLB.errors false none none =
      .ok (⟨["linear_bend"], some []⟩, outLB.gin, false,
        [.backupOp ["mol.com", "mol.out", "stderr.txt"] "error",
         .renameOp "mol.com" "mol.com.prev",
         .writeOp "mol.com" outLB.gin true]) ∧
    assocGet (applyOps fsMol
      [.backupOp ["mol.com", "mol.out", "stderr.txt"] "error",
       .renameOp "mol.com" "mol.com.prev",
       .writeOp "mol.com" outLB.gin true]) "mol.com" ≠
      some (.raw "original gaussian input") := by
  refine ⟨rfl, rfl, rfl, rfl, ?_⟩
  decide

/-- C3: the claim fails on the code.  On an optimization log with one
numerically parseable occurrence of the tracked metric, check
completes with exactly that entry; inserting one line whose value
column is a non numeric placeholder makes the unguarded float
conversion raise ValueError, so the scan aborts instead of skipping
the placeholder. -/
theorem conv_placeholder_aborts_scan :
    check hNormal ginOpt [" Maximum Force 0.016 0.000450 NO"] =
      .ok ⟨ginOpt, [], ⟨[("max_force", [⟨16, 3⟩])], [("max_force", ⟨450, 6⟩)]⟩, false⟩ ∧
    check hNormal ginOpt
      [" Maximum Force 0.016 0.000450 NO", " Maximum Force *** 0.000450"] =
      .error "ValueError" :=
  ⟨rfl, rfl⟩

theorem convUpdateCrit_preserve (line : String) (cd cd' : ConvData)
    (kv : String × Rex.RE) (k : String)
    (hv : (assocGet cd.values k).isSome = true)
    (hok : convUpdateCrit line cd kv = .ok cd') :
    assocGet cd'.thresh k = assocGet cd.thresh k ∧
    (assocGet cd'.values k).isSome = true := by
  cases hre : Rex.research kv.2 line.data with
  | none =>
    simp only [convUpdateCrit, hre] at hok
    injection hok with hok
    subst hok
    exact ⟨rfl, hv⟩
  | some caps =>
    simp only [convUpdateCrit, hre] at hok
    cases hvk : assocGet cd.values kv.1 with
    | none =>
      rw [hvk] at hok
      have hkne : k ≠ kv.1 := by
        intro hh
        rw [← hh] at hvk
        rw [hvk] at hv
        simp at hv
      cases hf2 : pyFloat (Rex.capGet caps 2) with
      | none => rw [hf2] at hok; exact Except.noConfusion hok
      | some v2 =>
        rw [hf2] at hok
        cases hf3 : pyFloat (Rex.capGet caps 3) with
        | none => rw [hf3] at hok; exact Except.noConfusion hok
        | some v3 =>
          rw [hf3] at hok
          injection hok with hok
          subst hok
          constructor
          · exact assocGet_assocSet_ne cd.thresh kv.1 k v3 hkne
          · rw [assocGet_assocSet_ne cd.values kv.1 k [v2] hkne]
            exact hv
    | some vs =>
      rw [hvk] at hok
      cases hf2 : pyFloat (Rex.capGet caps 2) with
      | none => rw [hf2] at hok; exact Except.noConfusion hok
      | some v2 =>
        rw [hf2] at hok
        injection hok with hok
        subst hok
        refine ⟨rfl, ?_⟩
        by_cases hk : k = kv.1
        · subst hk
          rw [assocGet_assocSet_self]
          rfl
        · rw [assocGet_assocSet_ne cd.values kv.1 k (vs ++ [v2]) hk]
          exact hv

theorem convFoldCrit_preserve (line : String) (crits : List (String × Rex.RE))
    (cd cd' : ConvData) (k : String)
    (hv : (assocGet cd.values k).isSome = true)
    (hok : crits.foldlM (convUpdateCrit line) cd = .ok cd') :
    assocGet cd'.thresh k = assocGet cd.thresh k ∧
    (assocGet cd'.values k).isSome = true := by
  induction crits generalizing cd with
  | nil =>
    simp only [List.foldlM] at hok
    have hcc : cd = cd' := Except.ok.inj hok
    subst hcc
    exact ⟨rfl, hv⟩
  | cons kv rest ih =>
    rw [List.foldlM_cons] at hok
    cases hc1 : convUpdateCrit line cd kv with
    | error e => rw [hc1] at hok; exact Except.noConfusion hok
    | ok cd1 =>
      rw [hc1] at hok
      obtain ⟨ht1, hv1⟩ := convUpdateCrit_preserve line cd cd1 kv k hv hc1
      obtain ⟨ht2, hv2⟩ := ih cd1 hv1 hok
      exact ⟨ht2.trans ht1, hv2⟩

theorem checkLine_thresh_preserve (h : Handler) (optJob : Bool)
    (st st' : List String × ConvData) (line : String) (k : String)
    (hv : (assocGet st.2.values k).isSome = true)
    (hok : checkLine h optJob st line = .ok st') :
    assocGet st'.2.thresh k = assocGet st.2.thresh k ∧
    (assocGet st'.2.values k).isSome = true := by
  cases hse : searchErrorPatt line with
  | none =>
    simp only [checkLine, hse] at hok
    split at hok
    · cases hcv : convUpdateLine line st.2 with
      | error e => rw [hcv] at hok; exact Except.noConfusion hok
      | ok cd =>
        rw [hcv] at hok
        simp only [Except.map] at hok
        injection hok with hok
        subst hok
        exact convFoldCrit_preserve line conv_critera st.2 cd k hv hcv
    · injection hok with hok
      subst hok
      exact ⟨rfl, hv⟩
  | some p =>
    simp only [checkLine, hse] at hok
    split at hok
    · cases hcv : convUpdateLine line st.2 with
      | error e => rw [hcv] at hok; exact Except.noConfusion hok
      | ok cd =>
        rw [hcv] at hok
        simp only [Except.map] at hok
        injection hok with hok
        subst hok
        exact convFoldCrit_preserve line conv_critera st.2 cd k hv hcv
    · injection hok with hok
      subst hok
      exact ⟨rfl, hv⟩

theorem thresh_recorded_persists (h : Handler) (optJob : Bool)
    (lines : List String) (st res : List String × ConvData) (k : String)
    (hv : (assocGet st.2.values k).isSome = true)
    (hfold : lines.foldlM (checkLine h optJob) st = .ok res) :
    assocGet res.2.thresh k = assocGet st.2.thresh k := by
  induction lines generalizing st with
  | nil =>
    simp only [List.foldlM] at hfold
    have hsr : st = res := Except.ok.inj hfold
    subst hsr
    rfl
  | cons l ls ih =>
    rw [List.foldlM_cons] at hfold
    cases hcl : checkLine h optJob st l with
    | error e => rw [hcl] at hfold; exact Except.noConfusion hfold
    | ok st1 =>
      rw [hcl] at hfold
      obtain ⟨ht1, hv1⟩ := checkLine_thresh_preserve h optJob st st1 l k hv hcl
      exact (ih st1 hv1 hfold).trans ht1

/-- C7 amended: the threshold recorded for a tracked metric is the
one parsed from the first matching line: once the metric has been
recorded after some prefix of the log, the remaining lines never
change the recorded threshold, whatever threshold columns they carry
(the source writes the threshold only on the branch that first
creates the value series). -/
theorem thresh_from_first_match (h : Handler) (gin : GInput)
    (pre post : List String) (out0 out : CheckOut) (k : String)
    (hok0 : check h gin pre = .ok out0)
    (hok : check h gin (pre ++ post) = .ok out)
    (hv : (assocGet out0.conv.values k).isSome = true) :
    assocGet out.conv.thresh k = assocGet out0.conv.thresh k := by
  obtain ⟨_, st0, hfold0, _, hconv0, _⟩ := check_ok_parts h gin pre out0 hok0
  obtain ⟨_, st, hfold, _, hconv, _⟩ := check_ok_parts h gin (pre ++ post) out hok
  rw [List.foldlM_append, hfold0] at hfold
  rw [hconv, hconv0]
  rw [hconv0] at hv
  exact thresh_recorded_persists h _ post st0 st k hv hfold

theorem thresh_from_first_match_witness :
    assocGet cdW7'.thresh "max_force" = assocGet cdW7.thresh "max_force" :=
  thresh_from_first_match hNormal ginOpt
    [" Maximum Force 0.016 0.000450 NO"] [" Maximum Force 0.020 0.000999 NO"]
    ⟨ginOpt, [], cdW7, false⟩ ⟨ginOpt, [], cdW7', false⟩ "max_force" rfl rfl rfl

/-- C7 counterexample: a log in which the max force pattern matches
on two lines with different threshold columns (0.000450 then
0.000999); the value series shows both lines matched, yet the
recorded threshold is the one of the first line, not the final one,
so the recorded threshold differs from the threshold parsed from the
last matching line. -/
theorem thresh_last_match_claim_false :
    (match check hNormal ginOpt
        [" Maximum Force 0.016 0.000450 NO", " Maximum Force 0.020 0.000999 NO"] with
     | .ok o => some o.conv
     | .error _ => none) =
      some ⟨[("max_force", [⟨16, 3⟩, ⟨20, 3⟩])], [("max_force", ⟨450, 6⟩)]⟩ ∧
    pyFloat "0.000999".data = some ⟨999, 6⟩ ∧
    (⟨450, 6⟩ : Dec) ≠ ⟨999, 6⟩ :=
  ⟨rfl, rfl, by decide⟩

theorem countBG_cap (errors : List String) (m : Int) :
    countBG ⟨errors, some [("scf_max_cycles", .pyInt m)]⟩ = 0 := rfl

theorem countBG_alg (errors : List String) :
    countBG ⟨errors, some [("scf_algorithm", .pyStr "xqc")]⟩ = 0 := rfl

theorem countBG_bg (errors : List String) :
    countBG ⟨errors, some [("scf_level_of_theory", .pyStr "better_scf_guess")]⟩ = 1 := rfl

theorem countBG_none (errors : List String) : countBG ⟨errors, none⟩ = 0 := rfl

theorem countBG_nil (errors : List String) : countBG ⟨errors, some []⟩ = 0 := rfl

theorem stepCall_pot (flag : Bool) (c : CallSpec) :
    (stepCall flag c).2 + (if (stepCall flag c).1 then 0 else 1) ≤ (if flag then 0 else 1) ∧
    (flag = true → (stepCall flag c).1 = true) := by
  unfold stepCall
  cases hc : correct c.h c.gin c.errors flag c.globChk c.globFchk with
  | error e => simp
  | ok val =>
    obtain ⟨res, g1, f1, ops⟩ := val
    unfold correct finishWrite at hc
    split at hc
    · split at hc
      · exact absurd hc (by simp)
      · exact absurd hc (by simp)
      · split at hc
        · simp only [Except.ok.injEq, Prod.mk.injEq] at hc
          obtain ⟨h1, _, h3, _⟩ := hc
          subst h1 h3
          simp [countBG_cap]
        · split at hc
          · simp only [Except.ok.injEq, Prod.mk.injEq] at hc
            obtain ⟨h1, _, h3, _⟩ := hc
            subst h1 h3
            simp [countBG_alg]
          · split at hc
            · rename_i hcond
              simp only [Bool.and_eq_true, Bool.not_eq_true'] at hcond
              simp only [Except.ok.injEq, Prod.mk.injEq] at hc
              obtain ⟨h1, _, h3, _⟩ := hc
              subst h1 h3
              simp [countBG_bg, hcond.2]
            · simp only [Except.ok.injEq, Prod.mk.injEq] at hc
              obtain ⟨h1, _, h3, _⟩ := hc
              subst h1 h3
              simp [countBG_none]
    · split at hc
      · exact absurd hc (by simp)
      · simp only [Except.ok.injEq, Prod.mk.injEq] at hc
        obtain ⟨h1, _, h3, _⟩ := hc
        subst h1 h3
        simp [countBG_nil]

theorem runTrace_pot (calls : List CallSpec) (flag : Bool) :
    (runTrace flag calls).2 + (if (runTrace flag calls).1 then 0 else 1) ≤
      (if flag then 0 else 1) ∧
    (flag = true → (runTrace flag calls).1 = true) := by
  induction calls generalizing flag with
  | nil => simp [runTrace]
  | cons c cs ih =>
    obtain ⟨hs1, hs2⟩ := stepCall_pot flag c
    obtain ⟨hi1, hi2⟩ := ih (stepCall flag c).1
    simp only [runTrace]
    constructor
    · cases hf : flag <;> cases h1 : (stepCall flag c).1 <;>
        cases h2 : (runTrace (stepCall flag c).1 cs).1 <;>
        simp_all
    · intro hft
      exact hi2 (hs2 hft)

/-- C4: across any sequence of correct calls within one process,
through any handler instances, the better initial guess remedy fires
at most once in total: starting from the class flag false, the action
scf_level_of_theory better_scf_guess is recorded at most once over
the whole sequence, and the shared flag is never reset: once true it
remains true under any further sequence of calls. -/
theorem better_guess_fires_at_most_once :
    (∀ calls : List CallSpec, (runTrace false calls).2 ≤ 1) ∧
    (∀ calls : List CallSpec, (runTrace true calls).1 = true) := by
  constructor
  · intro calls
    obtain ⟨h1, _⟩ := runTrace_pot calls false
    cases hf : (runTrace false calls).1 <;> simp_all
  · intro calls
    exact (runTrace_pot calls true).2 rfl

end GaussianErrorHandler
